import Mathlib

set_option maxRecDepth 4000

/-!
Shallow embedding of the core of a password-gated, end-to-end-encrypted
group chat application: room cryptography, wire and room-code codecs,
and the application controller state machine, together with proofs of
the specification claims about them.

External library primitives (Argon2id, AES-256-GCM, Base58, JSON
serialisation) are modelled as executable Lean functions with the
interface and the structural behaviour the application relies on; the
application logic itself (salt construction, ciphertext framing,
room-code field layout, and the whole controller) is translated
directly from the source.
-/

/-- Null character, the field separator inside a room code. -/
def nulChar : Char := Char.ofNat 0

/-- Null-character singleton string. -/
def nulStr : String := ⟨[nulChar]⟩

/-- UTF-8 encoding of a single character, as a list of byte values. -/
def charUTF8 (c : Char) : List Nat :=
  let n := c.toNat
  if n < 0x80 then [n]
  else if n < 0x800 then [0xC0 + n / 0x40, 0x80 + n % 0x40]
  else if n < 0x10000 then
    [0xE0 + n / 0x1000, 0x80 + n / 0x40 % 0x40, 0x80 + n % 0x40]
  else
    [0xF0 + n / 0x40000, 0x80 + n / 0x1000 % 0x40, 0x80 + n / 0x40 % 0x40,
      0x80 + n % 0x40]

/-- UTF-8 byte encoding of a string, as in Rust `str::as_bytes`. -/
def strBytes (s : String) : List Nat := s.data.flatMap charUTF8

/-- UTF-8 decoding of a byte list, as in Rust `str::from_utf8`: fails on a
byte sequence that is not structurally valid UTF-8. -/
def utf8Decode : List Nat → Option (List Char)
  | [] => some []
  | b :: bs =>
    if b < 0x80 then (utf8Decode bs).map (fun cs => Char.ofNat b :: cs)
    else if b < 0xC0 then none
    else
      match bs with
      | [] => none
      | b1 :: bs1 =>
        if b < 0xE0 then
          if 0x80 ≤ b1 ∧ b1 < 0xC0 then
            (utf8Decode bs1).map
              (fun cs => Char.ofNat ((b - 0xC0) * 0x40 + (b1 - 0x80)) :: cs)
          else none
        else
          match bs1 with
          | [] => none
          | b2 :: bs2 =>
            if b < 0xF0 then
              if (0x80 ≤ b1 ∧ b1 < 0xC0) ∧ (0x80 ≤ b2 ∧ b2 < 0xC0) then
                (utf8Decode bs2).map
                  (fun cs =>
                    Char.ofNat
                      ((b - 0xE0) * 0x1000 + (b1 - 0x80) * 0x40 +
                        (b2 - 0x80)) :: cs)
              else none
            else
              match bs2 with
              | [] => none
              | b3 :: bs3 =>
                if b < 0xF8 then
                  if (0x80 ≤ b1 ∧ b1 < 0xC0) ∧ (0x80 ≤ b2 ∧ b2 < 0xC0) ∧
                      (0x80 ≤ b3 ∧ b3 < 0xC0) then
                    (utf8Decode bs3).map
                      (fun cs =>
                        Char.ofNat
                          ((b - 0xF0) * 0x40000 + (b1 - 0x80) * 0x1000 +
                            (b2 - 0x80) * 0x40 + (b3 - 0x80)) :: cs)
                  else none
                else none

/-- Split a character list at its first null character, as one step of Rust
`str::splitn` with separator NUL: returns the part before the first NUL and
the remainder after it, or fails when no NUL is present. -/
def splitFirstNul : List Char → Option (List Char × List Char)
  | [] => none
  | c :: cs =>
    if c = nulChar then some ([], cs)
    else (splitFirstNul cs).map (fun p => (c :: p.1, p.2))

/-- Base58 alphabet used by the bs58 crate. -/
def b58Alphabet : List Char :=
  "123456789ABCDEFGHJKLMNPQRSTUVWXYZabcdefghijkmnopqrstuvwxyz".data

/-- Character for a base-58 digit value. -/
def b58CharOf (n : Nat) : Char := b58Alphabet.getD n '1'

/-- Digit value of a base-58 character; fails on characters outside the
alphabet. -/
def b58IndexOf (c : Char) : Option Nat :=
  b58Alphabet.findIdx? (fun x => x == c)

/-- Modelled from the spec: the bs58 crate byte-to-text codec, encoding side.
Modelled as a fixed-width codec over the Base58 alphabet: each byte becomes
two base-58 digits. The properties the application relies on are kept:
the output is printable Base58 text, encoding is injective, and
`bs58decode` inverts it. -/
def bs58encodeByte (b : Nat) : List Char :=
  [b58CharOf (b / 58), b58CharOf (b % 58)]

/-- Modelled from the spec: bs58 encoding of a byte list (see
`bs58encodeByte`). -/
def bs58encode (bs : List Nat) : String := ⟨bs.flatMap bs58encodeByte⟩

/-- Modelled from the spec: bs58 decoding, character-pair side. Fails on text
that is not valid under the model codec: odd length, characters outside the
Base58 alphabet, or a pair denoting a value that is not a byte. -/
def bs58decodePairs : List Char → Option (List Nat)
  | [] => some []
  | c1 :: c2 :: rest =>
    match b58IndexOf c1, b58IndexOf c2 with
    | some i1, some i2 =>
      let v := i1 * 58 + i2
      if v < 256 then (bs58decodePairs rest).map (fun bs => v :: bs) else none
    | _, _ => none
  | _ => none

/-- Modelled from the spec: bs58 decoding of a string to bytes. -/
def bs58decode (s : String) : Option (List Nat) := bs58decodePairs s.data

/-- One mixing step of the model hash used inside the modelled crypto
primitives; keeps every value a byte. -/
def mixStep (a b : Nat) : Nat := (a * 31 + b + 1) % 256

/-- Modelled from the spec: the Argon2id password hash (memory cost 8 MiB,
2 iterations, 1 lane, 32-byte output) from the argon2 crate. Modelled as a
deterministic executable function of `(password, salt)` that is injective
in the salt for a fixed password (idealising collision resistance) and
returns 32 bytes when the salt has 16 bytes. -/
def argon2id (password salt : List Nat) : List Nat :=
  salt ++ List.replicate 16 (password.foldl mixStep 0x13)

/-- Salt construction from the room name, translated from
`RoomKey::derive`: the UTF-8 room name copied into a 16-byte zero-padded
buffer, truncating longer names. -/
def saltOf (room_name : String) : List Nat :=
  let bs := strBytes room_name
  bs.take 16 ++ List.replicate (16 - min bs.length 16) 0

/-- A symmetric room key: the 32 key bytes held by `RoomKey` in the source. -/
structure RoomKey where
  key : List Nat
deriving DecidableEq, Repr

/-- Modelled from the spec: the AES-256-GCM authentication tag (16 bytes)
over key, nonce and ciphertext. The model cipher keeps the plaintext in
clear and authenticates it with this tag; ciphertext length equals
plaintext length plus 16, as for GCM. -/
def tagOf (key nonce ct : List Nat) : List Nat :=
  List.replicate 16 ((key ++ nonce ++ ct).foldl mixStep 0xA5)

/-- Key derivation, translated from `RoomKey::derive`: Argon2id over the
password bytes with the zero-padded truncated room-name salt. -/
def RoomKey.derive (password room_name : String) : RoomKey :=
  ⟨argon2id (strBytes password) (saltOf room_name)⟩

/-- Authenticated encryption, translated from `RoomKey::encrypt`: frame the
output as `nonce(12) ++ ciphertext+tag`. The nonce the encryptor draws is
passed explicitly. -/
def RoomKey.encrypt (k : RoomKey) (nonce plaintext : List Nat) : List Nat :=
  nonce ++ plaintext ++ tagOf k.key nonce plaintext

/-- Authenticated decryption, translated from `RoomKey::decrypt`: fail when
the frame is shorter than 28 bytes, split off the 12-byte nonce, and fail
when the tag does not verify. -/
def RoomKey.decrypt (k : RoomKey) (data : List Nat) : Option (List Nat) :=
  if data.length < 12 + 16 then none
  else
    let nonce := data.take 12
    let rest := data.drop 12
    let ct := rest.take (rest.length - 16)
    let tag := rest.drop (rest.length - 16)
    if tag = tagOf k.key nonce ct then some ct else none

/-- Fixed plaintext used to produce the password verification token,
translated from `VERIFY_MAGIC`. -/
def verifyMagic : String := "chatapp-v1-verification"

/-- Verification token production, translated from
`RoomKey::make_verification_token`: encrypt `VERIFY_MAGIC ++ "::" ++ room`. -/
def RoomKey.make_verification_token (k : RoomKey) (nonce : List Nat)
    (room_name : String) : List Nat :=
  k.encrypt nonce (strBytes (verifyMagic ++ "::" ++ room_name))

/-- Verification token check, translated from `RoomKey::verify_token`:
true iff the token decrypts and the plaintext is exactly the expected
verification string for `room_name`. -/
def RoomKey.verify_token (k : RoomKey) (token : List Nat)
    (room_name : String) : Bool :=
  match k.decrypt token with
  | some plaintext =>
    decide (plaintext = strBytes (verifyMagic ++ "::" ++ room_name))
  | none => false

/-- Topic for a room, translated from `topic_for_room`. -/
def topicForRoom (room_name : String) : String :=
  "/chatapp/v1/rooms/" ++ room_name

/-- Data embedded in a room code, translated from `RoomCodeData`. -/
structure RoomCodeData where
  room_name : String
  peer_id : String
  addr : String
deriving DecidableEq, Repr

/-- Room-code encoding, translated from `RoomCodeData::encode`:
NUL-delimited `room_name \x00 peer_id \x00 addr`, then Base58. -/
def RoomCodeData.encode (d : RoomCodeData) : String :=
  bs58encode (strBytes (d.room_name ++ nulStr ++ d.peer_id ++ nulStr ++ d.addr))

/-- Room-code decoding, translated from `RoomCodeData::decode`: Base58
decode, UTF-8 validate, then split into exactly three parts at the first
two NULs as Rust `splitn(3, nul)` does; the error strings are the anyhow
context strings of the source. -/
def RoomCodeData.decode (code : String) : Except String RoomCodeData :=
  match bs58decode code with
  | none => .error "base58 decode room code"
  | some bytes =>
    match utf8Decode bytes with
    | none => .error "room code is not valid UTF-8"
    | some chars =>
      match splitFirstNul chars with
      | none => .error "invalid room code format"
      | some (p1, rest) =>
        match splitFirstNul rest with
        | none => .error "invalid room code format"
        | some (p2, p3) => .ok ⟨⟨p1⟩, ⟨p2⟩, ⟨p3⟩⟩

/-- State of the currently joined room, translated from `RoomState`. -/
structure RoomState where
  name : String
  topic : String
  peer_count : Nat
deriving DecidableEq, Repr

/-- Fresh room state, translated from `RoomState::new`. -/
def RoomState.new (name : String) : RoomState :=
  ⟨name, topicForRoom name, 0⟩

/-- Type tag of a wire message, translated from `WireMessageType`. -/
inductive WireMessageType where
  | Chat
  | VerificationToken
deriving DecidableEq, Repr

/-- Plaintext pre-encryption message, translated from `WireMessage`. -/
structure WireMessage where
  msg_type : WireMessageType
  sender_nick : String
  sender_disc : String
  timestamp_ms : Int
  text : String
deriving DecidableEq, Repr

/-- String field encoding inside the modelled serialisation: length then
character codes. -/
def encStr (s : String) : List Nat := s.data.length :: s.data.map Char.toNat

/-- String field decoding inside the modelled serialisation. -/
def decStr : List Nat → Option (String × List Nat)
  | [] => none
  | n :: rest =>
    if n ≤ rest.length then
      some (⟨(rest.take n).map Char.ofNat⟩, rest.drop n)
    else none

/-- Integer field encoding inside the modelled serialisation. -/
def encInt (i : Int) : List Nat :=
  if 0 ≤ i then [0, i.toNat] else [1, (-i).toNat]

/-- Integer field decoding inside the modelled serialisation. -/
def decInt : List Nat → Option (Int × List Nat)
  | 0 :: m :: rest => some ((m : Int), rest)
  | 1 :: m :: rest => some (-(m : Int), rest)
  | _ => none

/-- Numeric tag of a wire-message type in the modelled serialisation. -/
def tagOfType : WireMessageType → Nat
  | .Chat => 0
  | .VerificationToken => 1

/-- Modelled from the spec: `serde_json::to_vec` on a `WireMessage`
(compact JSON with stable field names). Modelled as an injective executable
field-by-field serialisation that `deserializeWire` inverts. -/
def serializeWire (w : WireMessage) : List Nat :=
  tagOfType w.msg_type ::
    (encStr w.sender_nick ++ encStr w.sender_disc ++ encInt w.timestamp_ms ++
      encStr w.text)

/-- Modelled from the spec: `serde_json::from_slice` into a `WireMessage`;
fails on bytes that are not a full serialised message. -/
def deserializeWire (bs : List Nat) : Option WireMessage :=
  match bs with
  | [] => none
  | t :: rest => do
    let ty ←
      match t with
      | 0 => some WireMessageType.Chat
      | 1 => some WireMessageType.VerificationToken
      | _ => none
    let (nick, r1) ← decStr rest
    let (disc, r2) ← decStr r1
    let (ts, r3) ← decInt r2
    let (text, r4) ← decStr r3
    if r4 = [] then some ⟨ty, nick, disc, ts, text⟩ else none

/-- Modelled from the spec: the JSON text carried in the `text` field of a
verification-token wire message (`serde_json::to_string` of the token byte
vector). Modelled as an injective executable byte-to-text codec that
`textToToken` inverts on byte values. -/
def tokenToText (token : List Nat) : String := ⟨token.map Char.ofNat⟩

/-- Modelled from the spec: `serde_json::from_str` of the token byte vector
with `unwrap_or_default` (see `tokenToText`). -/
def textToToken (text : String) : List Nat := text.data.map Char.toNat

/-- A message ready to render, translated from `DisplayMessage`; the
timestamp is the wall-clock at construction. -/
structure DisplayMessage where
  timestamp : Int
  sender : String
  text : String
  is_system : Bool
deriving DecidableEq, Repr

/-- Chat display message, translated from `DisplayMessage::chat`. -/
def DisplayMessage.chat (now_ms : Int) (sender text : String) :
    DisplayMessage :=
  ⟨now_ms, sender, text, false⟩

/-- System display message, translated from `DisplayMessage::system`. -/
def DisplayMessage.system (now_ms : Int) (text : String) : DisplayMessage :=
  ⟨now_ms, "", text, true⟩

/-- Commands flowing from the application task to the network task,
translated from `NetworkCommand`. -/
inductive NetworkCommand where
  | Subscribe (topic : String)
  | Unsubscribe (topic : String)
  | Publish (topic : String) (data : List Nat)
  | Dial (addr : String)
  | QueryListenAddrs
deriving DecidableEq, Repr

/-- Events flowing from the network task to the application task,
translated from `NetworkEvent`. -/
inductive NetworkEvent where
  | MessageReceived (topic : String) (payload : List Nat)
  | PeerConnected
  | PeerDisconnected (peer_id : String)
  | PeerSubscribed (topic : String) (peer_id : String)
  | ListeningOn (addr : String)
  | NewExternalAddr (addr : String)
deriving DecidableEq, Repr

/-- Events flowing from the application task to the interface task,
translated from `UiEvent`. -/
inductive UiEvent where
  | NewMessage (msg : DisplayMessage)
  | StatusUpdate (room : Option String) (peers : Nat)
  | ShowMainMenu
  | RoomCreated (name : String) (code : String)
  | RoomJoined (name : String)
  | AccessDenied
  | Error (msg : String)
deriving DecidableEq, Repr

/-- Commands flowing from the interface task to the application task,
translated from `CliCommand`. -/
inductive CliCommand where
  | SendMessage (text : String)
  | CreateRoom (name : String) (password : String)
  | JoinRoom (code : String) (password : String)
  | LeaveRoom
  | ListPeers
  | Help
  | Quit
deriving DecidableEq, Repr

/-- Pending password verification, translated from `PendingVerify`; the
deadline is a `tokio::time::Instant` modelled in milliseconds. -/
structure PendingVerify where
  room_name : String
  room_key : RoomKey
  deadline : Nat
deriving DecidableEq, Repr

/-- Controller state, translated from the fields of `App`; the channel
handles are replaced by explicit command and event outputs, the identity
keypair is out of scope and only its derived strings are kept, and the
logger is kept as a presence flag (log file contents are out of scope). -/
structure AppState where
  identity_nickname : String
  identity_disc : String
  identity_peer_id : String
  room : Option RoomState
  room_key : Option RoomKey
  logger : Bool
  peers : List (String × String)
  listen_addrs : List String
  pending_verify : Option PendingVerify
deriving DecidableEq, Repr

/-- Result of one controller handler: the next state and the network
commands and UI events sent on the outgoing channels, in send order. -/
structure StepResult where
  state : AppState
  cmds : List NetworkCommand
  events : List UiEvent
deriving DecidableEq, Repr

/-- Display name, translated from `Identity::display_name`. -/
def AppState.display_name (st : AppState) : String :=
  st.identity_nickname ++ "#" ++ st.identity_disc

/-- Lookup in the peer table, modelling `HashMap::get` on the peer map. -/
def peersLookup (ps : List (String × String)) (k : String) : Option String :=
  (ps.find? (fun p => p.1 == k)).map (fun p => p.2)

/-- Status line event, translated from `App::emit_status`, applied to the
state current at emission time. -/
def statusEvent (st : AppState) : UiEvent :=
  .StatusUpdate (st.room.map (fun r => r.name))
    ((st.room.map (fun r => r.peer_count)).getD 0)

/-- Fresh controller state, translated from `App::new`. -/
def App.new (nickname disc peer_id : String) : AppState :=
  { identity_nickname := nickname
    identity_disc := disc
    identity_peer_id := peer_id
    room := none
    room_key := none
    logger := false
    peers := []
    listen_addrs := []
    pending_verify := none }

/-- Leaving the current room, translated from `App::leave_room`. -/
def App.leave_room (st : AppState) : StepResult :=
  let cmds :=
    match st.room with
    | some r => [NetworkCommand.Unsubscribe r.topic]
    | none => []
  let st' :=
    { st with
      room := none
      room_key := none
      logger := false
      pending_verify := none
      peers := [] }
  ⟨st', cmds, [.ShowMainMenu, statusEvent st']⟩

/-- Creating a room, translated from `App::create_room`; log-directory and
log-file I/O is modelled as succeeding. -/
def App.create_room (st : AppState) (name password : String) : StepResult :=
  let r1 := App.leave_room st
  let room_key := RoomKey.derive password name
  let topic := topicForRoom name
  let addr := (r1.state.listen_addrs.head?).getD ""
  let code :=
    RoomCodeData.encode ⟨name, r1.state.identity_peer_id, addr⟩
  let room_state := { RoomState.new name with peer_count := 1 }
  let st' :=
    { r1.state with
      room := some room_state
      room_key := some room_key
      logger := true }
  ⟨st', r1.cmds ++ [NetworkCommand.Subscribe topic],
    r1.events ++ [.RoomCreated name code, statusEvent st']⟩

/-- Verification deadline delay after issuing the subscribe, in
milliseconds (5 seconds in the source). -/
def verifyDeadlineMs : Nat := 5000

/-- Joining a room, translated from `App::join_room`; an invalid room code
aborts after the initial `leave_room` and surfaces as a UI error, as the
run loop of the source does with the returned error. -/
def App.join_room (st : AppState) (code password : String) (now : Nat)
    (now_ms : Int) : StepResult :=
  let r1 := App.leave_room st
  match RoomCodeData.decode code with
  | .error e => ⟨r1.state, r1.cmds, r1.events ++ [.Error e]⟩
  | .ok code_data =>
    let room_name := code_data.room_name
    let room_key := RoomKey.derive password room_name
    let topic := topicForRoom room_name
    let dial_cmds :=
      if code_data.addr = "" then [] else [NetworkCommand.Dial code_data.addr]
    let st' :=
      { r1.state with
        pending_verify :=
          some ⟨room_name, room_key, now + verifyDeadlineMs⟩
        logger := true }
    let msg :=
      DisplayMessage.system now_ms
        ("Connecting to room " ++ room_name ++ " — waiting for verification…")
    ⟨st', r1.cmds ++ dial_cmds ++ [NetworkCommand.Subscribe topic],
      r1.events ++ [.NewMessage msg]⟩

/-- Sending a chat message, translated from `App::send_message`. -/
def App.send_message (st : AppState) (text : String) (nonce : List Nat)
    (now_ms : Int) : StepResult :=
  match st.room, st.room_key with
  | some r, some k =>
    let wire : WireMessage :=
      ⟨.Chat, st.identity_nickname, st.identity_disc, now_ms, text⟩
    let encrypted := k.encrypt nonce (serializeWire wire)
    let display := DisplayMessage.chat now_ms st.display_name text
    ⟨st, [NetworkCommand.Publish r.topic encrypted], [.NewMessage display]⟩
  | _, _ => ⟨st, [], [.Error "Not in a room."]⟩

/-- Promotion of the pending key on a verified token, translated from
`App::confirm_join`. -/
def App.confirm_join (st : AppState) (room_name : String) : StepResult :=
  let st1 :=
    match st.pending_verify with
    | some pv =>
      { st with room_key := some pv.room_key, pending_verify := none }
    | none => st
  let st2 := { st1 with room := some (RoomState.new room_name) }
  ⟨st2, [], [.RoomJoined room_name, statusEvent st2]⟩

/-- Rejection on a failed token, translated from `App::deny_join`. -/
def App.deny_join (st : AppState) : StepResult :=
  let st1 := { st with pending_verify := none }
  let cmds :=
    match st1.room with
    | some r => [NetworkCommand.Unsubscribe r.topic]
    | none => []
  let st2 := { st1 with room := none, logger := false }
  ⟨st2, cmds, [.AccessDenied, .ShowMainMenu]⟩

/-- Normal-path inbound message handling for the active room, translated
from the second half of `App::handle_message`. -/
def App.handle_message_active (st : AppState) (topic : String)
    (payload : List Nat) (now_ms : Int) : StepResult :=
  match st.room, st.room_key with
  | some r, some k =>
    if List.isSuffixOf r.name.data topic.data then
      match k.decrypt payload with
      | none => ⟨st, [], []⟩
      | some plaintext =>
        match deserializeWire plaintext with
        | none => ⟨st, [], []⟩
        | some wire =>
          if wire.msg_type = .VerificationToken then ⟨st, [], []⟩
          else
            let sender := wire.sender_nick ++ "#" ++ wire.sender_disc
            if wire.sender_nick = st.identity_nickname ∧
                wire.sender_disc = st.identity_disc then
              ⟨st, [], []⟩
            else
              let joined :=
                if (peersLookup st.peers sender).isSome then
                  (st.peers, ([] : List UiEvent))
                else
                  (st.peers ++ [(sender, sender)],
                    [UiEvent.NewMessage
                      (DisplayMessage.system now_ms
                        (sender ++ " joined the room"))])
              let display := DisplayMessage.chat now_ms sender wire.text
              ⟨{ st with peers := joined.1 }, [],
                joined.2 ++ [.NewMessage display]⟩
    else ⟨st, [], []⟩
  | _, _ => ⟨st, [], []⟩

/-- Inbound message handling, translated from `App::handle_message`: the
pending-verification branch first, then the active-room path. -/
def App.handle_message (st : AppState) (topic : String) (payload : List Nat)
    (now_ms : Int) : StepResult :=
  match st.pending_verify with
  | some pv =>
    match pv.room_key.decrypt payload with
    | some plaintext =>
      match deserializeWire plaintext with
      | some wire =>
        if wire.msg_type = .VerificationToken then
          let token := textToToken wire.text
          if pv.room_key.verify_token token pv.room_name then
            App.confirm_join st pv.room_name
          else
            App.deny_join st
        else App.handle_message_active st topic payload now_ms
      | none => App.handle_message_active st topic payload now_ms
    | none => App.handle_message_active st topic payload now_ms
  | none => App.handle_message_active st topic payload now_ms

/-- Wrapping of raw verification-token bytes in an encrypted `WireMessage`
envelope, translated from `App::wrap_verification_token`; the source
`expect`s the room key, and is only called with it present. -/
def App.wrap_verification_token (st : AppState) (nonce token : List Nat)
    (now_ms : Int) : List Nat :=
  match st.room_key with
  | some key =>
    key.encrypt nonce
      (serializeWire
        ⟨.VerificationToken, st.identity_nickname, st.identity_disc, now_ms,
          tokenToText token⟩)
  | none => []

/-- Join-verification timeout check, translated from
`App::check_verify_timeout`. -/
def App.check_verify_timeout (st : AppState) (now : Nat) : StepResult :=
  let timed_out :=
    match st.pending_verify with
    | some pv => decide (pv.deadline ≤ now)
    | none => false
  if timed_out then
    match st.pending_verify with
    | some pv =>
      let st' :=
        { st with
          pending_verify := none
          room_key := some pv.room_key
          room := some (RoomState.new pv.room_name) }
      ⟨st', [], [.RoomJoined pv.room_name, statusEvent st']⟩
    | none => ⟨st, [], []⟩
  else ⟨st, [], []⟩

/-- Network event handling, translated from `App::handle_network_event`;
the nonces drawn for the token and its envelope and the wall clock are
passed explicitly. -/
def App.handle_network_event (st : AppState) (ev : NetworkEvent)
    (nonce1 nonce2 : List Nat) (now_ms : Int) : StepResult :=
  match ev with
  | .MessageReceived topic payload =>
    App.handle_message st topic payload now_ms
  | .PeerSubscribed topic _peer_id =>
    let pub :=
      match st.room, st.room_key with
      | some room, some key =>
        if topic = room.topic then
          [NetworkCommand.Publish topic
            (App.wrap_verification_token st nonce2
              (key.make_verification_token nonce1 room.name) now_ms)]
        else []
      | _, _ => []
    match st.room with
    | some room =>
      if topic = room.topic then
        let st' :=
          { st with room := some { room with peer_count := room.peer_count + 1 } }
        ⟨st', pub, [statusEvent st']⟩
      else ⟨st, pub, []⟩
    | none => ⟨st, pub, []⟩
  | .PeerDisconnected peer_id =>
    match peersLookup st.peers peer_id with
    | some name =>
      let st1 := { st with peers := st.peers.filter (fun p => p.1 ≠ peer_id) }
      let st2 :=
        { st1 with
          room :=
            st1.room.map (fun r => { r with peer_count := r.peer_count - 1 }) }
      ⟨st2, [],
        [.NewMessage (DisplayMessage.system now_ms (name ++ " disconnected")),
          statusEvent st2]⟩
    | none => ⟨st, [], []⟩
  | .ListeningOn addr =>
    if st.listen_addrs.contains addr then ⟨st, [], []⟩
    else ⟨{ st with listen_addrs := st.listen_addrs ++ [addr] }, [], []⟩
  | .NewExternalAddr addr =>
    if st.listen_addrs.contains addr then ⟨st, [], []⟩
    else ⟨{ st with listen_addrs := addr :: st.listen_addrs }, [], []⟩
  | .PeerConnected => ⟨st, [], []⟩

/-- Peer list text, translated from the `ListPeers` arm of
`App::handle_cli_command`. -/
def peersList (ps : List (String × String)) : String :=
  if ps.isEmpty then "No peers connected."
  else String.intercalate ", " (ps.map (fun p => p.2))

/-- CLI command handling, translated from `App::handle_cli_command`; `Quit`
only breaks the loop and leaves the state unchanged. -/
def App.handle_cli_command (st : AppState) (cmd : CliCommand)
    (nonce : List Nat) (now : Nat) (now_ms : Int) : StepResult :=
  match cmd with
  | .Quit => ⟨st, [], []⟩
  | .SendMessage text => App.send_message st text nonce now_ms
  | .CreateRoom name password => App.create_room st name password
  | .JoinRoom code password => App.join_room st code password now now_ms
  | .LeaveRoom => App.leave_room st
  | .ListPeers =>
    ⟨st, [],
      [.NewMessage
        (DisplayMessage.system now_ms ("Peers: " ++ peersList st.peers))]⟩
  | .Help =>
    ⟨st, [],
      [.NewMessage (DisplayMessage.system now_ms "/quit   — leave room / exit"),
        .NewMessage
          (DisplayMessage.system now_ms "/peers  — list connected peers"),
        .NewMessage
          (DisplayMessage.system now_ms "/help   — show this message")]⟩

/-- One input to the controller select loop: a CLI command, a network
event, or a timeout tick; the nonces the encryptors may draw and the
clocks are carried with the input. -/
inductive Input where
  | cli (cmd : CliCommand) (nonce : List Nat) (now : Nat) (now_ms : Int)
  | net (ev : NetworkEvent) (nonce1 nonce2 : List Nat) (now_ms : Int)
  | tick (now : Nat)

/-- One iteration of the controller event loop, translated from the select
arms of `App::run`. -/
def App.step (st : AppState) : Input → StepResult
  | .cli cmd nonce now now_ms => App.handle_cli_command st cmd nonce now now_ms
  | .net ev nonce1 nonce2 now_ms =>
    App.handle_network_event st ev nonce1 nonce2 now_ms
  | .tick now => App.check_verify_timeout st now

/-- Controller states reachable from a fresh controller by any sequence of
legal inputs. -/
inductive Reachable : AppState → Prop where
  | init (nick disc pid : String) : Reachable (App.new nick disc pid)
  | step (st : AppState) (inp : Input) :
      Reachable st → Reachable (App.step st inp).state

/-- A room key is held by the controller: either as the active key or
inside the pending-verification record (which always carries one). -/
def keyHeld (st : AppState) : Prop :=
  st.room_key.isSome = true ∨ st.pending_verify.isSome = true

/-- The state-exclusivity property of the specification: at most one of
PendingVerify and RoomState is present, and a room key is held iff one of
them is present. -/
def Exclusive (st : AppState) : Prop :=
  ¬(st.pending_verify.isSome = true ∧ st.room.isSome = true) ∧
    (keyHeld st ↔
      (st.pending_verify.isSome = true ∨ st.room.isSome = true))

/-- Inductive strengthening of `Exclusive`: while joining, neither an
active room nor an active key is present, and an active room is present
iff the active key is. -/
def InvS (st : AppState) : Prop :=
  (st.pending_verify.isSome = true → st.room = none ∧ st.room_key = none) ∧
    (st.room.isSome = true ↔ st.room_key.isSome = true)

/-- Concrete pending-verification key for the deny-transition scenario. -/
def c3Key : RoomKey := RoomKey.derive "pw" "room"

/-- Concrete controller state in the JOINING state for the deny-transition
scenario. -/
def c3State : AppState :=
  { App.new "me" "0a0b" "pid" with
    pending_verify := some ⟨"room", c3Key, 9999⟩
    logger := true }

/-- Concrete verification-token wire message whose embedded token fails
verification (its text decodes to an empty token). -/
def c3Wire : WireMessage := ⟨.VerificationToken, "bob", "1111", 0, ""⟩

/-- Concrete inbound payload for the deny-transition scenario: the wire
message encrypted under the pending key. -/
def c3Payload : List Nat :=
  c3Key.encrypt (List.replicate 12 7) (serializeWire c3Wire)

/-- Concrete room code whose decoded string contains three NUL bytes,
hence four NUL-separated parts. -/
def c8Code : String :=
  bs58encode
    (strBytes ("a" ++ nulStr ++ "b" ++ nulStr ++ "c" ++ nulStr ++ "d"))

/-- Concrete room key for the self-echo scenario. -/
def c9Key : RoomKey := RoomKey.derive "hunter2" "lobby"

/-- Concrete in-room controller state for the self-echo scenario. -/
def c9State : AppState :=
  { App.new "alice" "3f2a" "12D3Koo" with
    room := some { RoomState.new "lobby" with peer_count := 1 }
    room_key := some c9Key
    logger := true }

/-- Concrete inbound chat wire message whose sender identity equals the
local identity of `c9State`. -/
def c9Wire : WireMessage := ⟨.Chat, "alice", "3f2a", 5, "test"⟩

/-- Concrete looped-back payload for the self-echo scenario. -/
def c9Payload : List Nat :=
  c9Key.encrypt (List.replicate 12 1) (serializeWire c9Wire)

theorem saltOf_length (r : String) : (saltOf r).length = 16 := by
  simp only [saltOf, List.length_append, List.length_take,
    List.length_replicate]
  omega

theorem argon2id_length (pw salt : List Nat) :
    (argon2id pw salt).length = salt.length + 16 := by
  simp [argon2id]

theorem argon2id_salt_injective (pw s1 s2 : List Nat)
    (h : argon2id pw s1 = argon2id pw s2) : s1 = s2 := by
  simpa [argon2id] using List.append_cancel_right h

theorem tagOf_length (key nonce ct : List Nat) :
    (tagOf key nonce ct).length = 16 := by
  simp [tagOf]

theorem RoomKey.decrypt_encrypt (k : RoomKey) (nonce pt : List Nat)
    (h : nonce.length = 12) : k.decrypt (k.encrypt nonce pt) = some pt := by
  have htag := tagOf_length k.key nonce pt
  have hlen :
      ¬((nonce ++ (pt ++ tagOf k.key nonce pt)).length < 12 + 16) := by
    simp only [List.length_append, htag, h]
    omega
  simp only [RoomKey.encrypt, RoomKey.decrypt]
  rw [List.append_assoc, if_neg hlen,
    show (12 : Nat) = nonce.length from h.symm,
    List.take_left, List.drop_left]
  have h2 : (pt ++ tagOf k.key nonce pt).length - 16 = pt.length := by
    simp [htag]
  rw [h2, List.take_left, List.drop_left, if_pos rfl]

theorem decStr_encStr (s : String) (rest : List Nat) :
    decStr (encStr s ++ rest) = some (s, rest) := by
  simp only [encStr, decStr, List.cons_append]
  rw [if_pos (by simp)]
  rw [show s.data.length = (s.data.map Char.toNat).length by simp,
    List.take_left, List.drop_left]
  simp [List.map_map, Function.comp_def, Char.ofNat_toNat]

theorem decStr_encStr_nil (s : String) : decStr (encStr s) = some (s, []) := by
  have := decStr_encStr s []
  simpa using this

theorem decInt_encInt (i : Int) (rest : List Nat) :
    decInt (encInt i ++ rest) = some (i, rest) := by
  by_cases h : 0 ≤ i
  · simp [encInt, decInt, h, Int.toNat_of_nonneg h]
  · have h2 : 0 ≤ -i := by omega
    simp [encInt, decInt, h, Int.toNat_of_nonneg h2]

theorem deserializeWire_serializeWire (w : WireMessage) :
    deserializeWire (serializeWire w) = some w := by
  obtain ⟨ty, nick, disc, ts, text⟩ := w
  cases ty <;>
    · simp only [serializeWire, tagOfType, deserializeWire, List.append_assoc]
      simp [decStr_encStr, decInt_encInt, decStr_encStr_nil]

/-- Claim C4 counterexample: two distinct room names that agree on their
first 16 UTF-8 bytes produce the same derived key, because the salt
truncates the room name to 16 bytes; so derive(p, r1) = derive(p, r2) with
r1 different from r2, refuting the universal per-room distinctness. -/
theorem c4_derive_counterexample :
    RoomKey.derive "p" "aaaaaaaaaaaaaaaax" =
      RoomKey.derive "p" "aaaaaaaaaaaaaaaay" ∧
    ("aaaaaaaaaaaaaaaax" : String) ≠ "aaaaaaaaaaaaaaaay" :=
  ⟨rfl, by decide⟩

/-- Claim C4 (amended): derive(p, r) is deterministic and returns a 32-byte
key, and derive(p, r1) and derive(p, r2) differ whenever the 16-byte
zero-padded truncated salts of r1 and r2 differ (distinctness up to the
16-byte salt truncation, idealising the hash as collision-free). -/
theorem c4_derive_deterministic_salt_distinct :
    (∀ p r, RoomKey.derive p r = RoomKey.derive p r ∧
      (RoomKey.derive p r).key.length = 32) ∧
    (∀ p r1 r2, saltOf r1 ≠ saltOf r2 →
      RoomKey.derive p r1 ≠ RoomKey.derive p r2) := by
  constructor
  · intro p r
    refine ⟨rfl, ?_⟩
    rw [RoomKey.derive]
    simp [argon2id_length, saltOf_length]
  · intro p r1 r2 hsalt heq
    exact hsalt
      (argon2id_salt_injective (strBytes p) _ _ (congrArg RoomKey.key heq))

/-- Claim C4 amended witness: concrete instantiation at two room names with
different salts. -/
theorem c4_derive_deterministic_salt_distinct_witness :
    saltOf "lobby" ≠ saltOf "annex" ∧
    RoomKey.derive "p" "lobby" ≠ RoomKey.derive "p" "annex" ∧
    (RoomKey.derive "p" "lobby").key.length = 32 :=
  ⟨by decide,
    c4_derive_deterministic_salt_distinct.2 "p" "lobby" "annex" (by decide),
    (c4_derive_deterministic_salt_distinct.1 "p" "lobby").2⟩

/-- Claim C5: AEAD round-trip. For every key, plaintext and 12-byte nonce
the encryptor may draw, decrypting the encryption frame
`nonce ++ ciphertext+tag` recovers the plaintext. -/
theorem c5_aead_roundtrip (k : RoomKey) (m nonce : List Nat)
    (h : nonce.length = 12) :
    k.decrypt (k.encrypt nonce m) = some m :=
  RoomKey.decrypt_encrypt k nonce m h

/-- Claim C5 witness: concrete key, plaintext and nonce. -/
theorem c5_aead_roundtrip_witness :
    (List.replicate 12 0 : List Nat).length = 12 ∧
    (RoomKey.derive "pw" "r").decrypt
      ((RoomKey.derive "pw" "r").encrypt (List.replicate 12 0) [1, 2, 3]) =
      some [1, 2, 3] :=
  ⟨by decide,
    c5_aead_roundtrip (RoomKey.derive "pw" "r") [1, 2, 3]
      (List.replicate 12 0) (by decide)⟩

/-- Claim C10: handling SendMessage in any state with no active room or no
active key (menu or joining) emits exactly the error event
`Not in a room.`, issues no network command, and leaves the controller
state unchanged. -/
theorem c10_send_message_outside_room (st : AppState) (text : String)
    (nonce : List Nat) (now : Nat) (now_ms : Int)
    (h : st.room = none ∨ st.room_key = none) :
    App.step st (.cli (.SendMessage text) nonce now now_ms) =
      ⟨st, [], [.Error "Not in a room."]⟩ := by
  rcases h with h | h
  · simp [App.step, App.handle_cli_command, App.send_message, h]
  · cases hr : st.room <;>
      simp [App.step, App.handle_cli_command, App.send_message, h, hr]

/-- Claim C10 witness: concrete fresh controller state. -/
theorem c10_send_message_outside_room_witness :
    App.step (App.new "a" "b" "c") (.cli (.SendMessage "hi") [] 0 0) =
      ⟨App.new "a" "b" "c", [], [.Error "Not in a room."]⟩ :=
  c10_send_message_outside_room (App.new "a" "b" "c") "hi" [] 0 0
    (Or.inl rfl)

/-- Claim C6: joining records a pending verification whose deadline is 5
seconds (5000 ms) after join time, and on a timeout tick at or past that
deadline with the verification still pending the controller promotes the
pending key to the active key, installs a room state for the pending room
name, and emits RoomJoined. -/
theorem c6_timeout_promotion :
    (∀ st code password now now_ms d,
      RoomCodeData.decode code = .ok d →
      (App.join_room st code password now now_ms).state.pending_verify =
        some ⟨d.room_name, RoomKey.derive password d.room_name,
          now + 5000⟩) ∧
    (∀ st pv now, st.pending_verify = some pv → pv.deadline ≤ now →
      (App.check_verify_timeout st now).state.room_key = some pv.room_key ∧
      (App.check_verify_timeout st now).state.room =
        some (RoomState.new pv.room_name) ∧
      (App.check_verify_timeout st now).state.pending_verify = none ∧
      (App.check_verify_timeout st now).events =
        [.RoomJoined pv.room_name, .StatusUpdate (some pv.room_name) 0]) := by
  constructor
  · intro st code password now now_ms d hd
    simp [App.join_room, App.leave_room, hd, verifyDeadlineMs]
  · intro st pv now hpv hnow
    simp [App.check_verify_timeout, hpv, hnow, statusEvent, RoomState.new]

/-- Claim C6 witness: a concrete join records deadline 5100 from join time
100, and a concrete timeout tick at time 6000 promotes the pending key. -/
theorem c6_timeout_promotion_witness :
    (RoomCodeData.decode (RoomCodeData.encode ⟨"lobby", "p", ""⟩) =
      .ok ⟨"lobby", "p", ""⟩) ∧
    (App.join_room (App.new "a" "b" "c")
        (RoomCodeData.encode ⟨"lobby", "p", ""⟩) "pw" 100 0).state.pending_verify =
      some ⟨"lobby", RoomKey.derive "pw" "lobby", 5100⟩ ∧
    (App.check_verify_timeout
        { App.new "a" "b" "c" with
          pending_verify := some ⟨"lobby", RoomKey.derive "pw" "lobby", 5100⟩ }
        6000).state.room = some (RoomState.new "lobby") := by
  refine ⟨rfl, ?_, ?_⟩
  · exact c6_timeout_promotion.1 (App.new "a" "b" "c") _ "pw" 100 0
      ⟨"lobby", "p", ""⟩ rfl
  · exact (c6_timeout_promotion.2
      { App.new "a" "b" "c" with
        pending_verify := some ⟨"lobby", RoomKey.derive "pw" "lobby", 5100⟩ }
      ⟨"lobby", RoomKey.derive "pw" "lobby", 5100⟩ 6000 rfl
      (by decide)).2.1

/-- Claim C3 counterexample: in a concrete JOINING state, an inbound
message that decrypts under the pending key to a VerificationToken whose
embedded token fails verification makes the controller emit AccessDenied
then ShowMainMenu, but it issues NO network command at all: the claimed
Unsubscribe for the room topic is never sent, because `deny_join` only
unsubscribes when an active RoomState is present, and in JOINING there is
none. -/
theorem c3_deny_counterexample :
    c3State.pending_verify = some ⟨"room", c3Key, 9999⟩ ∧
    c3Key.decrypt c3Payload = some (serializeWire c3Wire) ∧
    deserializeWire (serializeWire c3Wire) = some c3Wire ∧
    c3Wire.msg_type = .VerificationToken ∧
    c3Key.verify_token (textToToken c3Wire.text) "room" = false ∧
    (App.handle_message c3State "/chatapp/v1/rooms/room" c3Payload 0).cmds =
      [] ∧
    (App.handle_message c3State "/chatapp/v1/rooms/room" c3Payload 0).events =
      [.AccessDenied, .ShowMainMenu] := by
  refine ⟨rfl, ?_, ?_, rfl, ?_, ?_, ?_⟩ <;> rfl

/-- Claim C3 (amended): if the controller is in the JOINING state (pending
verification present, no active room) and an inbound message decrypts
under the pending key to a VerificationToken wire message whose embedded
token fails verification for the pending room name, the controller returns
to MENU (pending verification cleared, still no active room, active key
unchanged), issues no network command (in particular no Unsubscribe; the
topic stays subscribed), and emits AccessDenied followed by ShowMainMenu. -/
theorem c3_deny_transition (st : AppState) (pv : PendingVerify)
    (topic : String) (payload : List Nat) (now_ms : Int) (pt : List Nat)
    (w : WireMessage)
    (hpv : st.pending_verify = some pv) (hroom : st.room = none)
    (hdec : pv.room_key.decrypt payload = some pt)
    (hw : deserializeWire pt = some w)
    (hty : w.msg_type = .VerificationToken)
    (hver : pv.room_key.verify_token (textToToken w.text) pv.room_name =
      false) :
    (App.handle_message st topic payload now_ms).state.pending_verify =
      none ∧
    (App.handle_message st topic payload now_ms).state.room = none ∧
    (App.handle_message st topic payload now_ms).state.room_key =
      st.room_key ∧
    (App.handle_message st topic payload now_ms).cmds = [] ∧
    (App.handle_message st topic payload now_ms).events =
      [.AccessDenied, .ShowMainMenu] := by
  simp [App.handle_message, hpv, hdec, hw, hty, hver, App.deny_join, hroom]

/-- Claim C3 amended witness: the concrete deny scenario again, through the
amended theorem. -/
theorem c3_deny_transition_witness :
    (App.handle_message c3State "/chatapp/v1/rooms/room" c3Payload 0).state.pending_verify =
      none ∧
    (App.handle_message c3State "/chatapp/v1/rooms/room" c3Payload 0).state.room =
      none ∧
    (App.handle_message c3State "/chatapp/v1/rooms/room" c3Payload 0).state.room_key =
      c3State.room_key ∧
    (App.handle_message c3State "/chatapp/v1/rooms/room" c3Payload 0).cmds =
      [] ∧
    (App.handle_message c3State "/chatapp/v1/rooms/room" c3Payload 0).events =
      [.AccessDenied, .ShowMainMenu] :=
  c3_deny_transition c3State ⟨"room", c3Key, 9999⟩ "/chatapp/v1/rooms/room"
    c3Payload 0 (serializeWire c3Wire) c3Wire rfl rfl (by rfl) (by rfl) rfl
    (by rfl)

theorem publish_not_mem_leave (st : AppState) (topic : String)
    (data : List Nat) :
    NetworkCommand.Publish topic data ∉ (App.leave_room st).cmds := by
  cases hr : st.room <;> simp [App.leave_room, hr]

theorem publish_not_mem_deny (st : AppState) (topic : String)
    (data : List Nat) :
    NetworkCommand.Publish topic data ∉ (App.deny_join st).cmds := by
  cases hr : st.room <;> simp [App.deny_join, hr]

theorem handle_message_active_cmds (st : AppState) (t : String)
    (p : List Nat) (ms : Int) :
    (App.handle_message_active st t p ms).cmds = [] := by
  unfold App.handle_message_active
  repeat' split
  all_goals rfl

theorem check_verify_timeout_cmds (st : AppState) (now : Nat) :
    (App.check_verify_timeout st now).cmds = [] := by
  unfold App.check_verify_timeout
  dsimp only
  repeat' split
  all_goals rfl

theorem publish_not_mem_handle_message (st : AppState) (t : String)
    (p : List Nat) (ms : Int) (topic : String) (data : List Nat) :
    NetworkCommand.Publish topic data ∉ (App.handle_message st t p ms).cmds := by
  have hact := handle_message_active_cmds st t p ms
  unfold App.handle_message
  rcases hpv : st.pending_verify with _ | pv
  · simp only [hpv]
    rw [hact]
    simp
  · simp only [hpv]
    rcases hdec : pv.room_key.decrypt p with _ | pt
    · simp only [hdec]
      rw [hact]
      simp
    · simp only [hdec]
      rcases hw : deserializeWire pt with _ | w
      · simp only [hw]
        rw [hact]
        simp
      · simp only [hw]
        by_cases hty : w.msg_type = WireMessageType.VerificationToken
        · rw [if_pos hty]
          by_cases hver :
              pv.room_key.verify_token (textToToken w.text) pv.room_name =
                true
          · rw [if_pos hver]
            simp [App.confirm_join]
          · rw [if_neg hver]
            exact publish_not_mem_deny st topic data
        · rw [if_neg hty]
          rw [hact]
          simp

/-- Claim C2: every Publish command the controller ever issues, on any
input in any state, carries a payload that is the output of encrypt under
the room key current at that moment applied to a serialized WireMessage;
no other payload is ever published. -/
theorem c2_no_plaintext_on_wire (st : AppState) (inp : Input)
    (topic : String) (data : List Nat)
    (h : NetworkCommand.Publish topic data ∈ (App.step st inp).cmds) :
    ∃ k nonce w, st.room_key = some k ∧
      data = k.encrypt nonce (serializeWire w) := by
  cases inp with
  | cli cmd nonce now now_ms =>
    cases cmd with
    | SendMessage text =>
      rcases hr : st.room with _ | r
      · simp [App.step, App.handle_cli_command, App.send_message, hr] at h
      · rcases hk : st.room_key with _ | k
        · simp [App.step, App.handle_cli_command, App.send_message, hr,
            hk] at h
        · simp only [App.step, App.handle_cli_command, App.send_message, hr,
            hk, List.mem_singleton] at h
          refine ⟨k, nonce,
            ⟨.Chat, st.identity_nickname, st.identity_disc, now_ms, text⟩,
            rfl, ?_⟩
          exact (NetworkCommand.Publish.injEq _ _ _ _).mp h |>.2
    | CreateRoom name password =>
      cases hr : st.room <;>
        simp [App.step, App.handle_cli_command, App.create_room,
          App.leave_room, hr] at h
    | JoinRoom code password =>
      simp only [App.step, App.handle_cli_command, App.join_room] at h
      split at h
      · exact absurd (by simpa using h) (publish_not_mem_leave st topic data)
      · rcases h2 : (by
          have := h
          simp only [List.mem_append] at this
          exact this) with h3 | h3
        · rcases h3 with h4 | h4
          · exact absurd h4 (publish_not_mem_leave st topic data)
          · split at h4 <;> simp at h4
        · simp at h3
    | LeaveRoom =>
      exact absurd (by simpa [App.step, App.handle_cli_command] using h)
        (publish_not_mem_leave st topic data)
    | ListPeers => simp [App.step, App.handle_cli_command] at h
    | Help => simp [App.step, App.handle_cli_command] at h
    | Quit => simp [App.step, App.handle_cli_command] at h
  | net ev nonce1 nonce2 now_ms =>
    cases ev with
    | MessageReceived t p =>
      exact absurd (by simpa [App.step, App.handle_network_event] using h)
        (publish_not_mem_handle_message st t p now_ms topic data)
    | PeerSubscribed t pid =>
      simp only [App.step, App.handle_network_event] at h
      rcases hr : st.room with _ | room
      · simp only [hr] at h
        simp at h
      · rcases hk : st.room_key with _ | key
        · simp only [hr, hk] at h
          by_cases ht : t = room.topic <;> simp [ht] at h
        · simp only [hr, hk] at h
          by_cases ht : t = room.topic
          · simp [ht] at h
            refine ⟨key, nonce2,
              ⟨.VerificationToken, st.identity_nickname, st.identity_disc,
                now_ms,
                tokenToText (key.make_verification_token nonce1 room.name)⟩,
              rfl, ?_⟩
            rw [h.2]
            simp [App.wrap_verification_token, hk]
          · simp [ht] at h
    | PeerDisconnected pid =>
      simp only [App.step, App.handle_network_event] at h
      rcases hp : peersLookup st.peers pid with _ | name <;>
        simp [hp] at h
    | ListeningOn addr =>
      by_cases ha : addr ∈ st.listen_addrs <;>
        simp [App.step, App.handle_network_event, ha] at h
    | NewExternalAddr addr =>
      by_cases ha : addr ∈ st.listen_addrs <;>
        simp [App.step, App.handle_network_event, ha] at h
    | PeerConnected =>
      simp [App.step, App.handle_network_event] at h
  | tick now =>
    rw [show App.step st (.tick now) = App.check_verify_timeout st now from
      rfl, check_verify_timeout_cmds] at h
    simp at h

/-- Claim C2 witness: a concrete in-room send publishes an encryption of a
serialized WireMessage under the current room key. -/
theorem c2_no_plaintext_on_wire_witness :
    NetworkCommand.Publish (topicForRoom "lobby")
        (c9Key.encrypt (List.replicate 12 1)
          (serializeWire ⟨.Chat, "alice", "3f2a", 0, "hi"⟩)) ∈
      (App.step c9State
        (.cli (.SendMessage "hi") (List.replicate 12 1) 0 0)).cmds ∧
    ∃ k nonce w, c9State.room_key = some k ∧
      c9Key.encrypt (List.replicate 12 1)
          (serializeWire ⟨.Chat, "alice", "3f2a", 0, "hi"⟩) =
        k.encrypt nonce (serializeWire w) :=
  ⟨by decide, c2_no_plaintext_on_wire c9State
    (.cli (.SendMessage "hi") (List.replicate 12 1) 0 0)
    (topicForRoom "lobby") _ (by decide)⟩

theorem invS_leave (st : AppState) : InvS (App.leave_room st).state := by
  simp [App.leave_room, InvS]

theorem invS_create (st : AppState) (name password : String) :
    InvS (App.create_room st name password).state := by
  simp [App.create_room, App.leave_room, InvS]

theorem invS_join (st : AppState) (code password : String) (now : Nat)
    (now_ms : Int) : InvS (App.join_room st code password now now_ms).state := by
  unfold App.join_room
  split <;> simp [App.leave_room, InvS]

theorem send_message_state (st : AppState) (text : String) (nonce : List Nat)
    (ms : Int) : (App.send_message st text nonce ms).state = st := by
  unfold App.send_message
  repeat' split
  all_goals rfl

theorem handle_message_active_fields (st : AppState) (t : String)
    (p : List Nat) (ms : Int) :
    (App.handle_message_active st t p ms).state.room = st.room ∧
    (App.handle_message_active st t p ms).state.room_key = st.room_key ∧
    (App.handle_message_active st t p ms).state.pending_verify =
      st.pending_verify := by
  unfold App.handle_message_active
  repeat' split
  all_goals simp

theorem invS_handle_message (st : AppState) (t : String) (p : List Nat)
    (ms : Int) (h : InvS st) : InvS (App.handle_message st t p ms).state := by
  have hact := handle_message_active_fields st t p ms
  have hactInv : InvS (App.handle_message_active st t p ms).state := by
    simp only [InvS] at h ⊢
    rw [hact.1, hact.2.1, hact.2.2]
    exact h
  unfold App.handle_message
  rcases hpv : st.pending_verify with _ | pv
  · simpa only [hpv] using hactInv
  · obtain ⟨hroom, hkey⟩ := h.1 (by rw [hpv]; rfl)
    simp only [hpv]
    rcases hdec : pv.room_key.decrypt p with _ | pt
    · simp only [hdec]
      exact hactInv
    · simp only [hdec]
      rcases hw : deserializeWire pt with _ | w
      · simp only [hw]
        exact hactInv
      · simp only [hw]
        by_cases hty : w.msg_type = WireMessageType.VerificationToken
        · rw [if_pos hty]
          by_cases hver :
              pv.room_key.verify_token (textToToken w.text) pv.room_name =
                true
          · rw [if_pos hver]
            simp [App.confirm_join, hpv, InvS]
          · rw [if_neg hver]
            simp [App.deny_join, hroom, hkey, InvS]
        · rw [if_neg hty]
          exact hactInv

theorem invS_net (st : AppState) (ev : NetworkEvent) (n1 n2 : List Nat)
    (ms : Int) (h : InvS st) :
    InvS (App.handle_network_event st ev n1 n2 ms).state := by
  cases ev with
  | MessageReceived t p => exact invS_handle_message st t p ms h
  | PeerSubscribed t pid =>
    rcases hr : st.room with _ | room
    · simp only [App.handle_network_event, hr]
      exact h
    · obtain ⟨h1, h2⟩ := h
      have hkey : st.room_key.isSome = true := h2.mp (by rw [hr]; rfl)
      by_cases ht : t = room.topic
      · simp only [App.handle_network_event, hr, ht, if_pos rfl]
        refine ⟨?_, ?_⟩
        · intro hpv
          exact absurd (h1 hpv).1 (by rw [hr]; simp)
        · simpa using hkey
      · simp only [App.handle_network_event, hr, if_neg ht]
        exact ⟨h1, h2⟩
  | PeerDisconnected pid =>
    rcases hp : peersLookup st.peers pid with _ | name
    · simp only [App.handle_network_event, hp]
      exact h
    · obtain ⟨h1, h2⟩ := h
      simp only [App.handle_network_event, hp]
      refine ⟨?_, ?_⟩
      · intro hpv
        obtain ⟨hr, hk⟩ := h1 hpv
        rw [hr, hk]
        simp
      · simpa using h2
  | ListeningOn addr =>
    by_cases ha : addr ∈ st.listen_addrs <;>
      · simp only [App.handle_network_event]
        simp only [InvS] at h ⊢
        split <;> exact h
  | NewExternalAddr addr =>
    simp only [App.handle_network_event]
    simp only [InvS] at h ⊢
    split <;> exact h
  | PeerConnected =>
    simp only [App.handle_network_event]
    exact h

theorem invS_tick (st : AppState) (now : Nat) (h : InvS st) :
    InvS (App.check_verify_timeout st now).state := by
  unfold App.check_verify_timeout
  dsimp only
  split
  · split
    · simp [InvS]
    · exact h
  · exact h

theorem invS_step (st : AppState) (inp : Input) (h : InvS st) :
    InvS (App.step st inp).state := by
  cases inp with
  | cli cmd nonce now now_ms =>
    cases cmd with
    | SendMessage text =>
      rw [show (App.step st (.cli (.SendMessage text) nonce now now_ms)).state =
        (App.send_message st text nonce now_ms).state from rfl,
        send_message_state]
      exact h
    | CreateRoom name password => exact invS_create st name password
    | JoinRoom code password => exact invS_join st code password now now_ms
    | LeaveRoom => exact invS_leave st
    | ListPeers => exact h
    | Help => exact h
    | Quit => exact h
  | net ev n1 n2 ms => exact invS_net st ev n1 n2 ms h
  | tick now => exact invS_tick st now h

theorem reachable_invS (st : AppState) (h : Reachable st) : InvS st := by
  induction h with
  | init nick disc pid => simp [App.new, InvS]
  | step st' inp _ ih => exact invS_step st' inp ih

theorem invS_exclusive (st : AppState) (h : InvS st) : Exclusive st := by
  obtain ⟨h1, h2⟩ := h
  rcases hpv : st.pending_verify with _ | pv
  · refine ⟨by simp [hpv], ?_⟩
    simp only [keyHeld, hpv]
    constructor
    · rintro (hk | hk)
      · exact Or.inr (h2.mpr hk)
      · simp at hk
    · rintro (hk | hk)
      · simp at hk
      · exact Or.inl (h2.mp hk)
  · obtain ⟨hr, hk⟩ := h1 (by rw [hpv]; rfl)
    refine ⟨?_, ?_⟩
    · rw [hr, hpv]
      simp
    · simp [keyHeld, hpv]

/-- Claim C1: every controller state reachable by any sequence of CLI
commands, network events and timeout ticks satisfies state exclusivity (at
most one of PendingVerify and RoomState present, and a room key held iff
one of them is present), and every handler preserves it from any reachable
state. -/
theorem c1_state_exclusivity (st : AppState) (h : Reachable st) :
    Exclusive st ∧ ∀ inp : Input, Exclusive (App.step st inp).state := by
  have hs := reachable_invS st h
  exact ⟨invS_exclusive st hs,
    fun inp => invS_exclusive _ (invS_step st inp hs)⟩

/-- Claim C1 witness: the fresh controller state is reachable and
exclusive. -/
theorem c1_state_exclusivity_witness :
    Exclusive (App.new "alice" "3f2a" "12D3Koo") :=
  (c1_state_exclusivity (App.new "alice" "3f2a" "12D3Koo")
    (Reachable.init "alice" "3f2a" "12D3Koo")).1

theorem isSuffixOf_topicForRoom (n : String) :
    List.isSuffixOf n.data (topicForRoom n).data = true := by
  rw [topicForRoom, String.data_append]
  simp [List.isSuffixOf]

/-- Claim C9: an inbound message that decrypts under the active key to a
Chat WireMessage whose sender nick and discriminator equal the local
identity produces no UI event and leaves the state unchanged; and sending
a text while in a room emits exactly one Chat NewMessage (the local echo),
while handling the loop-back of the published payload emits nothing. -/
theorem c9_self_echo_suppression :
    (∀ st r k topic payload now_ms pt w,
      st.pending_verify = none → st.room = some r → st.room_key = some k →
      k.decrypt payload = some pt → deserializeWire pt = some w →
      w.msg_type = .Chat →
      w.sender_nick = st.identity_nickname →
      w.sender_disc = st.identity_disc →
      App.handle_message st topic payload now_ms = ⟨st, [], []⟩) ∧
    (∀ st r k text nonce now_ms now_ms2,
      st.pending_verify = none → st.room = some r → st.room_key = some k →
      r.topic = topicForRoom r.name → nonce.length = 12 →
      (App.send_message st text nonce now_ms).events =
        [.NewMessage (DisplayMessage.chat now_ms st.display_name text)] ∧
      (App.send_message st text nonce now_ms).state = st ∧
      ∀ data t2,
        NetworkCommand.Publish t2 data ∈
          (App.send_message st text nonce now_ms).cmds →
        App.handle_message st t2 data now_ms2 = ⟨st, [], []⟩) := by
  constructor
  · intro st r k topic payload now_ms pt w hpv hroom hk hdec hw hty hnick
      hdisc
    unfold App.handle_message
    simp only [hpv]
    unfold App.handle_message_active
    simp only [hroom, hk]
    by_cases hs : List.isSuffixOf r.name.data topic.data = true
    · rw [if_pos hs]
      simp only [hdec, hw]
      rw [if_neg (by rw [hty]; simp)]
      rw [if_pos ⟨hnick, hdisc⟩]
    · rw [if_neg hs]
  · intro st r k text nonce now_ms now_ms2 hpv hroom hk htopic hnonce
    refine ⟨?_, ?_, ?_⟩
    · simp [App.send_message, hroom, hk]
    · simp [App.send_message, hroom, hk]
    · intro data t2 hmem
      simp only [App.send_message, hroom, hk, List.mem_singleton,
        NetworkCommand.Publish.injEq] at hmem
      obtain ⟨ht2, hdata⟩ := hmem
      unfold App.handle_message
      simp only [hpv]
      unfold App.handle_message_active
      simp only [hroom, hk]
      rw [ht2, htopic, if_pos (isSuffixOf_topicForRoom r.name), hdata,
        RoomKey.decrypt_encrypt k nonce _ hnonce]
      simp only [deserializeWire_serializeWire]
      rw [if_neg (by simp)]
      simp

/-- Claim C9 witness: in a concrete in-room state, the loop-back of an own
chat message is discarded and a send emits exactly one local echo. -/
theorem c9_self_echo_suppression_witness :
    App.handle_message c9State (topicForRoom "lobby") c9Payload 9 =
      ⟨c9State, [], []⟩ ∧
    (App.send_message c9State "test" (List.replicate 12 1) 0).events =
      [.NewMessage (DisplayMessage.chat 0 c9State.display_name "test")] :=
  ⟨c9_self_echo_suppression.1 c9State
      { RoomState.new "lobby" with peer_count := 1 } c9Key
      (topicForRoom "lobby") c9Payload 9 (serializeWire c9Wire) c9Wire rfl
      rfl rfl (by rfl) (by rfl) rfl rfl rfl,
    (c9_self_echo_suppression.2 c9State
      { RoomState.new "lobby" with peer_count := 1 } c9Key "test"
      (List.replicate 12 1) 0 0 rfl rfl rfl rfl (by decide)).1⟩

theorem charToNat_lt (c : Char) : c.toNat < 0x110000 := by
  have h := c.valid
  show c.val.toNat < 0x110000
  rcases h with h | h <;> omega

theorem charUTF8_lt_256 (c : Char) : ∀ b ∈ charUTF8 c, b < 256 := by
  intro b hb
  have h := charToNat_lt c
  unfold charUTF8 at hb
  dsimp only at hb
  repeat' split at hb
  all_goals simp at hb
  all_goals omega

theorem strBytes_lt_256 (s : String) : ∀ b ∈ strBytes s, b < 256 := by
  intro b hb
  simp only [strBytes, List.mem_flatMap] at hb
  obtain ⟨c, _, hc⟩ := hb
  exact charUTF8_lt_256 c b hc

theorem b58IndexOf_b58CharOf : ∀ i, i < 58 →
    b58IndexOf (b58CharOf i) = some i := by decide

theorem bs58decodePairs_encodeByte (b : Nat) (hb : b < 256)
    (rest : List Char) :
    bs58decodePairs (bs58encodeByte b ++ rest) =
      (bs58decodePairs rest).map (fun bs => b :: bs) := by
  have h1 : b / 58 < 58 := by omega
  have h2 : b % 58 < 58 := by omega
  simp only [bs58encodeByte, List.cons_append, List.nil_append,
    bs58decodePairs, b58IndexOf_b58CharOf _ h1, b58IndexOf_b58CharOf _ h2]
  rw [show b / 58 * 58 + b % 58 = b from by omega, if_pos hb]
  rfl

theorem bs58_roundtrip (bs : List Nat) (h : ∀ b ∈ bs, b < 256) :
    bs58decode (bs58encode bs) = some bs := by
  rw [bs58encode, bs58decode]
  show bs58decodePairs (bs.flatMap bs58encodeByte) = some bs
  induction bs with
  | nil => rfl
  | cons b tl ih =>
    rw [List.flatMap_cons, bs58decodePairs_encodeByte b (h b (by simp)),
      ih (fun x hx => h x (by simp [hx]))]
    rfl

theorem utf8Decode_charUTF8 (c : Char) (bs : List Nat) :
    utf8Decode (charUTF8 c ++ bs) =
      (utf8Decode bs).map (fun cs => c :: cs) := by
  have hlt := charToNat_lt c
  by_cases h1 : c.toNat < 0x80
  · have he : charUTF8 c = [c.toNat] := by
      rw [charUTF8]
      exact if_pos h1
    rw [he, List.cons_append]
    rw [utf8Decode.eq_def]
    dsimp only
    rw [if_pos h1, Char.ofNat_toNat]
    rw [List.nil_append]
  · by_cases h2 : c.toNat < 0x800
    · have he : charUTF8 c =
          [0xC0 + c.toNat / 0x40, 0x80 + c.toNat % 0x40] := by
        rw [charUTF8]
        rw [if_neg h1]
        exact if_pos h2
      rw [he, List.cons_append, List.cons_append]
      rw [utf8Decode.eq_def]
      dsimp only
      rw [if_neg (by omega), if_neg (by omega), if_pos (by omega),
        if_pos (by constructor <;> omega)]
      rw [show (0xC0 + c.toNat / 0x40 - 0xC0) * 0x40 +
          (0x80 + c.toNat % 0x40 - 0x80) = c.toNat from by omega,
        Char.ofNat_toNat]
      rw [List.nil_append]
    · by_cases h3 : c.toNat < 0x10000
      · have he : charUTF8 c =
            [0xE0 + c.toNat / 0x1000, 0x80 + c.toNat / 0x40 % 0x40,
              0x80 + c.toNat % 0x40] := by
          rw [charUTF8]
          rw [if_neg h1, if_neg h2]
          exact if_pos h3
        rw [he, List.cons_append, List.cons_append, List.cons_append]
        rw [utf8Decode.eq_def]
        dsimp only
        rw [if_neg (by omega), if_neg (by omega), if_neg (by omega),
          if_pos (by omega),
          if_pos (by refine ⟨⟨?_, ?_⟩, ?_, ?_⟩ <;> omega)]
        rw [show (0xE0 + c.toNat / 0x1000 - 0xE0) * 0x1000 +
            (0x80 + c.toNat / 0x40 % 0x40 - 0x80) * 0x40 +
            (0x80 + c.toNat % 0x40 - 0x80) = c.toNat from by omega,
          Char.ofNat_toNat]
        rw [List.nil_append]
      · have he : charUTF8 c =
            [0xF0 + c.toNat / 0x40000, 0x80 + c.toNat / 0x1000 % 0x40,
              0x80 + c.toNat / 0x40 % 0x40, 0x80 + c.toNat % 0x40] := by
          rw [charUTF8]
          rw [if_neg h1, if_neg h2]
          exact if_neg h3
        rw [he, List.cons_append, List.cons_append, List.cons_append,
          List.cons_append]
        rw [utf8Decode.eq_def]
        dsimp only
        rw [if_neg (by omega), if_neg (by omega), if_neg (by omega),
          if_neg (by omega), if_pos (by omega),
          if_pos (by refine ⟨⟨?_, ?_⟩, ⟨?_, ?_⟩, ?_, ?_⟩ <;> omega)]
        rw [show (0xF0 + c.toNat / 0x40000 - 0xF0) * 0x40000 +
            (0x80 + c.toNat / 0x1000 % 0x40 - 0x80) * 0x1000 +
            (0x80 + c.toNat / 0x40 % 0x40 - 0x80) * 0x40 +
            (0x80 + c.toNat % 0x40 - 0x80) = c.toNat from by omega,
          Char.ofNat_toNat]
        rw [List.nil_append]

theorem utf8Decode_flatMap (cs : List Char) (bs : List Nat) :
    utf8Decode (cs.flatMap charUTF8 ++ bs) =
      (utf8Decode bs).map (fun tail => cs ++ tail) := by
  induction cs with
  | nil =>
    rw [List.flatMap_nil, List.nil_append]
    cases utf8Decode bs <;> rfl
  | cons c tl ih =>
    rw [List.flatMap_cons, List.append_assoc, utf8Decode_charUTF8, ih]
    cases utf8Decode bs <;> rfl

theorem utf8Decode_strBytes (s : String) :
    utf8Decode (strBytes s) = some s.data := by
  have h := utf8Decode_flatMap s.data []
  rw [List.append_nil] at h
  rw [strBytes, h]
  simp [utf8Decode]

theorem splitFirstNul_append (cs rest : List Char) (h : nulChar ∉ cs) :
    splitFirstNul (cs ++ nulChar :: rest) = some (cs, rest) := by
  induction cs with
  | nil =>
    rw [List.nil_append, splitFirstNul, if_pos rfl]
  | cons c tl ih =>
    have hc : ¬(c = nulChar) := fun hh => h (by simp [hh])
    rw [List.cons_append, splitFirstNul, if_neg hc,
      ih (fun hm => h (by simp [hm]))]
    rfl

theorem splitFirstNul_none_of_count (cs : List Char)
    (h : List.count nulChar cs = 0) : splitFirstNul cs = none := by
  induction cs with
  | nil => rfl
  | cons c tl ih =>
    by_cases hb : c = nulChar
    · subst hb
      simp [List.count_cons] at h
    · rw [splitFirstNul, if_neg hb, ih ?_]
      · rfl
      · revert h
        simp [List.count_cons, hb]

theorem splitFirstNul_count (cs p1 p2 : List Char)
    (h : splitFirstNul cs = some (p1, p2)) :
    List.count nulChar cs = List.count nulChar p2 + 1 := by
  induction cs generalizing p1 with
  | nil => simp [splitFirstNul] at h
  | cons c tl ih =>
    by_cases hb : c = nulChar
    · subst hb
      rw [splitFirstNul, if_pos rfl] at h
      simp only [Option.some.injEq, Prod.mk.injEq] at h
      rw [← h.2]
      simp [List.count_cons]
    · rw [splitFirstNul, if_neg hb] at h
      cases hs : splitFirstNul tl with
      | none =>
        rw [hs] at h
        simp at h
      | some q =>
        rw [hs] at h
        simp at h
        have htl : splitFirstNul tl = some (q.1, p2) := by
          rw [hs, ← h.2]
        have hcount := ih q.1 htl
        simp [List.count_cons, hb, hcount]

/-- Claim C7: for every room-code triple whose fields contain no NUL
character (Lean strings are valid UTF-8 by construction), decoding the
encoding succeeds and returns the triple unchanged. -/
theorem c7_room_code_roundtrip (name pid addr : String)
    (h1 : nulChar ∉ name.data) (h2 : nulChar ∉ pid.data)
    (_h3 : nulChar ∉ addr.data) :
    RoomCodeData.decode (RoomCodeData.encode ⟨name, pid, addr⟩) =
      .ok ⟨name, pid, addr⟩ := by
  have hdata :
      (name ++ nulStr ++ pid ++ nulStr ++ addr).data =
        name.data ++ nulChar :: (pid.data ++ nulChar :: addr.data) := by
    simp [String.data_append, nulStr]
  rw [RoomCodeData.encode]
  unfold RoomCodeData.decode
  simp only [bs58_roundtrip _ (strBytes_lt_256 _), utf8Decode_strBytes,
    hdata, splitFirstNul_append _ _ h1, splitFirstNul_append _ _ h2]

/-- Claim C7 witness: concrete round-trip of a realistic room code. -/
theorem c7_room_code_roundtrip_witness :
    (nulChar ∉ ("lobby" : String).data ∧
      nulChar ∉ ("12D3Koo" : String).data ∧
      nulChar ∉ ("/ip4/1.2.3.4/tcp/4001" : String).data) ∧
    RoomCodeData.decode
        (RoomCodeData.encode ⟨"lobby", "12D3Koo", "/ip4/1.2.3.4/tcp/4001"⟩) =
      .ok ⟨"lobby", "12D3Koo", "/ip4/1.2.3.4/tcp/4001"⟩ :=
  ⟨⟨by decide, by decide, by decide⟩,
    c7_room_code_roundtrip "lobby" "12D3Koo" "/ip4/1.2.3.4/tcp/4001"
      (by decide) (by decide) (by decide)⟩

/-- Claim C8 counterexample: a room code whose decoded string contains
three NULs — four NUL-separated parts — is ACCEPTED by decode, with the
extra NUL kept inside the third field, because the source splits with
`splitn(3, nul)`; this refutes the claim that inputs with more than three
NUL-separated parts are rejected. -/
theorem c8_decode_counterexample :
    RoomCodeData.decode c8Code = .ok ⟨"a", "b", "c" ++ nulStr ++ "d"⟩ ∧
    List.count nulChar
        (("a" ++ nulStr ++ "b" ++ nulStr ++ "c" ++ nulStr ++ "d").data) =
      3 := by
  exact ⟨rfl, by decide⟩

/-- Claim C8 (amended): decode returns an error for every input that is
not valid Base58 (under the model codec), or whose decoded bytes are not
valid UTF-8, or whose decoded string contains fewer than two NUL bytes
(fewer than three NUL-separated parts); inputs whose decoded string has
more than two NULs are accepted, the extra NULs remaining in the third
field (see the counterexample). -/
theorem c8_decode_rejection :
    (∀ code, bs58decode code = none →
      RoomCodeData.decode code = .error "base58 decode room code") ∧
    (∀ code bytes, bs58decode code = some bytes → utf8Decode bytes = none →
      RoomCodeData.decode code = .error "room code is not valid UTF-8") ∧
    (∀ code bytes chars, bs58decode code = some bytes →
      utf8Decode bytes = some chars → List.count nulChar chars < 2 →
      RoomCodeData.decode code = .error "invalid room code format") := by
  refine ⟨?_, ?_, ?_⟩
  · intro code h
    unfold RoomCodeData.decode
    simp only [h]
  · intro code bytes hb hu
    unfold RoomCodeData.decode
    simp only [hb, hu]
  · intro code bytes chars hb hu hcount
    unfold RoomCodeData.decode
    simp only [hb, hu]
    cases hs : splitFirstNul chars with
    | none => simp only [hs]
    | some p =>
      obtain ⟨p1, p2⟩ := p
      have hc1 := splitFirstNul_count chars p1 p2 hs
      have hc2 : List.count nulChar p2 = 0 := by omega
      simp only [hs, splitFirstNul_none_of_count p2 hc2]

/-- Claim C8 amended witness: one concrete rejected input for each of the
three rejection cases. -/
theorem c8_decode_rejection_witness :
    (bs58decode "0" = none ∧
      RoomCodeData.decode "0" = .error "base58 decode room code") ∧
    (bs58decode (bs58encode [255]) = some [255] ∧ utf8Decode [255] = none ∧
      RoomCodeData.decode (bs58encode [255]) =
        .error "room code is not valid UTF-8") ∧
    (bs58decode (bs58encode (strBytes "ab")) = some (strBytes "ab") ∧
      utf8Decode (strBytes "ab") = some ("ab" : String).data ∧
      List.count nulChar ("ab" : String).data < 2 ∧
      RoomCodeData.decode (bs58encode (strBytes "ab")) =
        .error "invalid room code format") :=
  ⟨⟨rfl, c8_decode_rejection.1 "0" rfl⟩,
    ⟨rfl, rfl, c8_decode_rejection.2.1 (bs58encode [255]) [255] rfl rfl⟩,
    ⟨rfl, rfl, by decide,
      c8_decode_rejection.2.2 (bs58encode (strBytes "ab")) (strBytes "ab")
        ("ab" : String).data rfl rfl (by decide)⟩⟩
